import Mathlib

/-!
Verification of `cdmx_pothole_detection/scripts/extract_frames_from_videos.py`.

The script enumerates video object keys under an input bucket,
skips videos recorded in a local cache file, downloads each remaining
video to `/tmp`, samples every Nth decoded frame, uploads each sampled
frame as `{output_prefix}/{video_basename}_frame_{i}.jpg`, deletes the
scratch files on the success path, and appends the scratch path of the
video to the cache file.

This development is a shallow embedding of that script.  The external
collaborators (S3 client, cv2 decoder, local filesystem) are modelled
explicitly: the decoder for a key is the list of frames `cap.read`
returns before it first returns `ret = False`; S3 calls can be made to
fail through an environment of success flags; the cache file is a
string; the local scratch directory is the list of file paths present.
A run is recorded as a trace of I/O events together with the final
state, and Python exceptions are modelled as an `Option RunError`
result that aborts the remaining computation, exactly as an uncaught
exception aborts the script.
-/

namespace FrameExtract

/-- Model of `os.path.basename` restricted to POSIX separators: the suffix
of the string after the last `/` (line 48 of the script). -/
def basenameAux : List Char → List Char → List Char
  | [], acc => acc.reverse
  | c :: rest, acc => if c = '/' then basenameAux rest [] else basenameAux rest (c :: acc)

/-- `os.path.basename` as used on S3 keys. -/
def basename (s : String) : String := ⟨basenameAux s.data []⟩

/-- Model of Python `file.readlines()`: split the file content into lines,
each line keeping its trailing newline character (line 53 of the script). -/
def readlinesAux : List Char → List Char → List String
  | [], acc => if acc.isEmpty then [] else [⟨acc.reverse⟩]
  | c :: rest, acc =>
    if c = '\n' then (⟨(c :: acc).reverse⟩ : String) :: readlinesAux rest []
    else readlinesAux rest (c :: acc)

/-- Python `readlines` over a whole file content. -/
def pyReadlines (s : String) : List String := readlinesAux s.data []

/-- Model of Python `%` on integers (sign follows the divisor), used at
line 70 of the script.  `Int.fmod` is floor-rounding modulus, which is
exactly Python's semantics. -/
def pyMod (a b : Int) : Int := Int.fmod a b

/-- The scratch download path `f"/tmp/{video_name}"` (line 49). -/
def downloadPathOf (videoName : String) : String := "/tmp/" ++ videoName

/-- The frame file name `f"{video_name}_frame_{frame_index}.jpg"` (line 71). -/
def frameNameOf (videoName : String) (frameIndex : Nat) : String :=
  videoName ++ "_frame_" ++ Nat.repr frameIndex ++ ".jpg"

/-- The local frame path `f"/tmp/{frame_name}"` (line 72). -/
def framePathOf (videoName : String) (frameIndex : Nat) : String :=
  "/tmp/" ++ frameNameOf videoName frameIndex

/-- The S3 upload key `f"{output_prefix}/{frame_name}"` (line 76). -/
def uploadKeyOf (outPfx videoName : String) (frameIndex : Nat) : String :=
  outPfx ++ "/" ++ frameNameOf videoName frameIndex

/-- The membership test the orchestrator performs against the cache file
(lines 51-55): if the cache file exists, `download_path in f.readlines()`.
`none` models a missing cache file. -/
def isComplete (cache : Option String) (videoName : String) : Bool :=
  match cache with
  | none => false
  | some content => decide (downloadPathOf videoName ∈ pyReadlines content)

/-- The append at the end of a video's processing (lines 85-86): open the
cache file in append mode (creating it when missing) and write
`f"{download_path}\n"`. -/
def markComplete (cache : Option String) (videoName : String) : Option String :=
  some ((cache.getD "") ++ (downloadPathOf videoName ++ "\n"))

/-- One I/O event of a run: the S3 listing, an S3 download call for a key,
an S3 upload call (key and uploaded frame content), or an append of a line
to the cache file. -/
inductive Event where
  | listKeys (pfx : String)
  | download (key : String)
  | upload (key : String) (content : Nat)
  | ledgerAppend (line : String)
deriving DecidableEq, Repr

/-- An uncaught Python exception aborting the run: `ZeroDivisionError`
from `i % sampling_rate` with rate 0, or a boto3 error from
`download_file` / `upload_file`. -/
inductive RunError where
  | zeroDivision
  | downloadFailed (key : String)
  | uploadFailed (key : String)
deriving DecidableEq, Repr

/-- The external world: for every input key, the frames `cap.read` returns
before it first returns `ret = False`, and whether each S3 download/upload
call succeeds. -/
structure Env where
  videos : String → List Nat
  downloadOk : String → Bool
  uploadOk : String → Bool

/-- Mutable state threaded through the run: the cache file (`none` when
the file does not exist), the set of local scratch files present in
`/tmp`, the uploaded objects of the bucket, and the trace of I/O events
performed so far. -/
structure S where
  cache : Option String
  tmp : List String
  outputs : String → Option Nat
  events : List Event

/-- Create-or-overwrite a local file (`cv2.imwrite`, `download_file`). -/
def setTmp (l : List String) (p : String) : List String :=
  if p ∈ l then l else l ++ [p]

/-- `os.remove` on a local file. -/
def delTmp (l : List String) (p : String) : List String := l.erase p

/-- The state before any run on a fresh machine: no cache file, empty
scratch directory, no uploaded objects, empty trace. -/
def initS : S := { cache := none, tmp := [], outputs := fun _ => none, events := [] }

/-- The frame loop, lines 61-81 of the script.  Arguments track the list
of frames still to be decoded, the decoded ordinal `i`, and the emitted
index `frame_index`.  Python raises `ZeroDivisionError` at `i %
sampling_rate` when the rate is 0; an upload failure propagates as an
exception, leaving the frame file (written by `imwrite` just before) and
skipping the rest of the loop. -/
def frameLoop (env : Env) (p vn : String) (rate : Int) :
    List Nat → Nat → Nat → S → S × Option RunError
  | [], _, _, s => (s, none)
  | f :: rest, i, fi, s =>
    if rate = 0 then (s, some RunError.zeroDivision)
    else if pyMod (i : Int) rate = 0 then
      let fpath := framePathOf vn fi
      let ukey := uploadKeyOf p vn fi
      let s1 : S := { s with tmp := setTmp s.tmp fpath }
      let s2 : S := { s1 with events := s1.events ++ [Event.upload ukey f] }
      if env.uploadOk ukey then
        frameLoop env p vn rate rest (i + 1) (fi + 1)
          { s2 with
            outputs := fun q => if q = ukey then some f else s2.outputs q,
            tmp := delTmp s2.tmp fpath }
      else (s2, some (RunError.uploadFailed ukey))
    else frameLoop env p vn rate rest (i + 1) fi s

/-- Processing of one candidate key, lines 45-86 of the script: derive the
basename, consult the cache, download, run the frame loop, delete the
scratch video, append the cache line.  A download failure or a frame-loop
exception propagates out. -/
def processVideo (env : Env) (p : String) (rate : Int) (vk : String) (s : S) :
    S × Option RunError :=
  let vn := basename vk
  let dpath := downloadPathOf vn
  if isComplete s.cache vn then (s, none)
  else
    let s1 : S := { s with events := s.events ++ [Event.download vk] }
    if env.downloadOk vk then
      let s2 : S := { s1 with tmp := setTmp s1.tmp dpath }
      match frameLoop env p vn rate (env.videos vk) 0 0 s2 with
      | (s3, none) =>
        let s4 : S := { s3 with tmp := delTmp s3.tmp dpath }
        let s5 : S := { s4 with cache := markComplete s4.cache vn }
        ({ s5 with events := s5.events ++ [Event.ledgerAppend (dpath ++ "\n")] }, none)
      | (s3, some e) => (s3, some e)
    else (s1, some (RunError.downloadFailed vk))

/-- The `for vk in video_keys` loop of `main` (lines 45-86).  The script
has no exception handling, so any per-video error aborts the whole loop. -/
def runKeys (env : Env) (p : String) (rate : Int) : List String → S → S × Option RunError
  | [], s => (s, none)
  | vk :: rest, s =>
    match processVideo env p rate vk s with
    | (s1, none) => runKeys env p rate rest s1
    | (s1, some e) => (s1, some e)

/-- `main(bucket, input_prefix, output_prefix, sampling_rate)`: list the
keys under the input location (the `keys` argument is the listing result),
then run the per-video loop. -/
def mainRun (env : Env) (ipfx p : String) (rate : Int) (keys : List String) (s : S) :
    S × Option RunError :=
  runKeys env p rate keys { s with events := s.events ++ [Event.listKeys ipfx] }

/-- Environment in which every S3 call succeeds and every video decodes to
the single frame `5`. -/
def envAllOk : Env :=
  { videos := fun _ => [5], downloadOk := fun _ => true, uploadOk := fun _ => true }

/-- Environment in which every download fails. -/
def envDlFail : Env :=
  { videos := fun _ => [5], downloadOk := fun _ => false, uploadOk := fun _ => true }

/-- Environment in which every upload fails. -/
def envUpFail : Env :=
  { videos := fun _ => [5], downloadOk := fun _ => true, uploadOk := fun _ => false }

/-- Environment in which only the download of `in/b.mp4` fails. -/
def envC4 : Env :=
  { videos := fun _ => [5],
    downloadOk := fun q => decide (q ≠ "in/b.mp4"),
    uploadOk := fun _ => true }

/-- Environment with two distinct videos sharing the basename `v.mp4`:
`a/v.mp4` decodes to the frame `3`, every other key to the frame `9`. -/
def envC10 : Env :=
  { videos := fun q => if q = "a/v.mp4" then [3] else [9],
    downloadOk := fun _ => true, uploadOk := fun _ => true }

/-- The keys of the upload events in a trace, in order. -/
def uploadKeysOf : List Event → List String
  | [] => []
  | Event.upload k _ :: es => k :: uploadKeysOf es
  | _ :: es => uploadKeysOf es

/-- The decoded ordinals in `[i, i + len)` that are multiples of `N`,
in increasing order: the ordinals the sampling test emits. -/
def mults (N i len : Nat) : List Nat :=
  match len with
  | 0 => []
  | Nat.succ len' => (if i % N = 0 then [i] else []) ++ mults N (i + 1) len'

/-- Upload events for the emitted ordinals `os`, numbered from frame index
`fi`, taking the frame content at ordinal `o` from `g o`. -/
def evtsOf (p vn : String) : Nat → (Nat → Nat) → List Nat → List Event
  | _, _, [] => []
  | fi, g, o :: os => Event.upload (uploadKeyOf p vn fi) (g o) :: evtsOf p vn (fi + 1) g os

/-- The upload events of a fully successful pass over `frames` with
sampling rate `N`: one upload per frame index `t < ⌈D / N⌉`, carrying the
frame at decoded ordinal `t * N`. -/
def frameEvts (p vn : String) (N : Nat) (frames : List Nat) : List Event :=
  (List.range ((frames.length + N - 1) / N)).map
    (fun t => Event.upload (uploadKeyOf p vn t) (frames.getD (t * N) 0))

/-! ### Basic lemmas about the model's pure helpers -/

/-- Python `%` agrees with `Nat` remainder on nonnegative arguments. -/
theorem pyMod_coe (i N : Nat) : pyMod (i : Int) (N : Int) = ((i % N : Nat) : Int) :=
  (Int.ofNat_fmod i N).symm

/-- A frame scratch path is never the video scratch path: the frame name
strictly extends the video name. -/
theorem framePath_ne_downloadPath (vn : String) (j : Nat) :
    framePathOf vn j ≠ downloadPathOf vn := by
  intro h
  have hl := congrArg String.length h
  simp only [framePathOf, downloadPathOf, frameNameOf, String.length_append] at hl
  have e1 : String.length "_frame_" = 7 := rfl
  have e2 : String.length ".jpg" = 4 := rfl
  omega

/-- Writing a fresh file and then removing it restores the scratch set. -/
theorem delTmp_setTmp (l : List String) (q : String) (h : q ∉ l) :
    delTmp (setTmp l q) q = l := by
  simp only [setTmp, delTmp, if_neg h]
  induction l with
  | nil => simp [List.erase_cons_head]
  | cons a l ih =>
    have ha : a ≠ q := by intro he; exact h (he ▸ List.mem_cons_self a l)
    have hq : q ∉ l := fun hm => h (List.mem_cons_of_mem a hm)
    simp only [List.cons_append, List.erase_cons]
    rw [if_neg (by simpa using ha), ih hq]

/-- `mults` concatenates over a split of the window. -/
theorem mults_split (N : Nat) : ∀ (a i b : Nat),
    mults N i (a + b) = mults N i a ++ mults N (i + a) b := by
  intro a
  induction a with
  | zero => intro i b; simp [mults]
  | succ a ih =>
    intro i b
    have h1 : a + 1 + b = (a + b) + 1 := by omega
    have h2 : i + (a + 1) = (i + 1) + a := by omega
    rw [h1, h2]
    show (if i % N = 0 then [i] else []) ++ mults N (i + 1) (a + b) =
      ((if i % N = 0 then [i] else []) ++ mults N (i + 1) a) ++ mults N (i + 1 + a) b
    rw [ih (i + 1) b, List.append_assoc]

/-- Every emitted ordinal lies at or beyond the window start. -/
theorem mults_le (N : Nat) : ∀ (len i o : Nat), o ∈ mults N i len → i ≤ o := by
  intro len
  induction len with
  | zero => intro i o h; simp [mults] at h
  | succ len ih =>
    intro i o h
    simp only [mults, List.mem_append] at h
    rcases h with h | h
    · rcases Nat.decEq (i % N) 0 with hd | hd
      · simp [if_neg hd] at h
      · rw [if_pos hd] at h
        simp at h
        omega
    · have := ih (i + 1) o h
      omega

/-- The emitted ordinals starting from 0 are the sampled ordinals of the
first `D` decoded frames. -/
theorem mults_filter (N : Nat) : ∀ D : Nat,
    mults N 0 D = (List.range D).filter (fun j => decide (j % N = 0)) := by
  intro D
  induction D with
  | zero => simp [mults]
  | succ D ih =>
    have hpeel : mults N 0 (D + 1) = mults N 0 D ++ mults N D 1 := by
      have := mults_split N D 0 1
      simpa using this
    have h1 : mults N D 1 = if D % N = 0 then [D] else [] := by
      simp [mults]
    rw [hpeel, ih, h1, List.range_succ, List.filter_append]
    simp [List.filter_cons]

/-- Ceiling division: `(D + N - 1) / N` is `D / N` when `N` divides `D`. -/
theorem ceil_eq_div (N D : Nat) (hN : 0 < N) (hD : D % N = 0) :
    (D + N - 1) / N = D / N := by
  have h := Nat.div_add_mod D N
  have h2 : D + N - 1 = (N - 1) + N * (D / N) := by omega
  rw [h2, Nat.add_mul_div_left _ _ hN, Nat.div_eq_of_lt (by omega)]
  omega

/-- Ceiling division: `(D + N - 1) / N` is `D / N + 1` when `N` does not
divide `D`. -/
theorem ceil_eq_div_succ (N D : Nat) (hN : 0 < N) (hD : D % N ≠ 0) :
    (D + N - 1) / N = D / N + 1 := by
  have h := Nat.div_add_mod D N
  have hlt : D % N < N := Nat.mod_lt _ hN
  have hmul : N * (D / N + 1) = N * (D / N) + N := by ring
  have h2 : D + N - 1 = (D % N - 1) + N * (D / N + 1) := by omega
  rw [h2, Nat.add_mul_div_left _ _ hN, Nat.div_eq_of_lt (by omega)]
  omega

/-- The emitted ordinals of a `D`-frame video are `0, N, 2N, …`, one for
each frame index below `⌈D / N⌉`. -/
theorem mults_zero (N : Nat) (hN : 0 < N) : ∀ D : Nat,
    mults N 0 D = (List.range ((D + N - 1) / N)).map (fun t => t * N) := by
  intro D
  induction D with
  | zero =>
    have h0 : (0 + N - 1) / N = 0 := Nat.div_eq_of_lt (by omega)
    rw [h0]
    simp [mults]
  | succ D ih =>
    have hpeel : mults N 0 (D + 1) = mults N 0 D ++ mults N D 1 := by
      have := mults_split N D 0 1
      simpa using this
    have h1 : mults N D 1 = if D % N = 0 then [D] else [] := by
      simp [mults]
    by_cases hD : D % N = 0
    · have hc : (D + N - 1) / N = D / N := ceil_eq_div N D hN hD
      have hk1 : (D + 1 + N - 1) / N = (D + N - 1) / N + 1 := by
        have ha : D + 1 + N - 1 = D + N := by omega
        rw [ha, Nat.add_div_right D hN, hc]
      have hqN : (D + N - 1) / N * N = D := by
        rw [hc]
        exact Nat.div_mul_cancel (Nat.dvd_of_mod_eq_zero hD)
      rw [hpeel, ih, h1, if_pos hD, hk1, List.range_succ, List.map_append]
      simp [hqN]
    · have hc : (D + N - 1) / N = D / N + 1 := ceil_eq_div_succ N D hN hD
      have hk1 : (D + 1 + N - 1) / N = (D + N - 1) / N := by
        have ha : D + 1 + N - 1 = D + N := by omega
        rw [ha, Nat.add_div_right D hN, hc]
      rw [hpeel, ih, h1, if_neg hD, hk1]
      simp

/-- Frame indices below `⌈D / N⌉` sample ordinals strictly below `D`. -/
theorem mul_lt_of_lt_ceil (N D t : Nat) (hN : 0 < N) (ht : t < (D + N - 1) / N) :
    t * N < D := by
  by_contra hle
  push_neg at hle
  have h2 : t * N + N - 1 = (N - 1) + N * t := by
    rw [Nat.mul_comm t N]
    omega
  have h3 : ((N - 1) + N * t) / N = t := by
    rw [Nat.add_mul_div_left _ _ hN, Nat.div_eq_of_lt (by omega)]
    omega
  have h1 : (D + N - 1) / N ≤ (t * N + N - 1) / N := Nat.div_le_div_right (by omega)
  rw [h2, h3] at h1
  exact absurd ht (Nat.not_lt.2 h1)

/-- `evtsOf` only looks at the content function on the listed ordinals. -/
theorem evtsOf_congr (p vn : String) (g g' : Nat → Nat) :
    ∀ (os : List Nat) (fi : Nat), (∀ o ∈ os, g o = g' o) →
      evtsOf p vn fi g os = evtsOf p vn fi g' os := by
  intro os
  induction os with
  | nil => intro fi h; rfl
  | cons o os ih =>
    intro fi h
    simp only [evtsOf]
    rw [h o (List.mem_cons_self o os), ih (fi + 1) (fun q hq => h q (List.mem_cons_of_mem o hq))]

/-- `evtsOf` over a mapped range is the mapped range of upload events. -/
theorem evtsOf_map_range (p vn : String) (g : Nat → Nat) :
    ∀ (k fi : Nat) (h : Nat → Nat),
      evtsOf p vn fi g ((List.range k).map h) =
        (List.range k).map
          (fun t => Event.upload (uploadKeyOf p vn (fi + t)) (g (h t))) := by
  intro k
  induction k with
  | zero => intro fi h; simp [evtsOf]
  | succ k ih =>
    intro fi h
    rw [List.range_succ_eq_map]
    simp only [List.map_cons, List.map_map, evtsOf, Nat.add_zero]
    congr 1
    rw [ih (fi + 1) (h ∘ Nat.succ)]
    apply List.map_congr_left
    intro t _
    simp only [Function.comp]
    have he : fi + 1 + t = fi + (t + 1) := by omega
    rw [he]

/-- The upload events of a success pass, in ceiling-division form. -/
theorem evtsOf_mults (p vn : String) (N : Nat) (hN : 0 < N) (frames : List Nat) :
    evtsOf p vn 0 (fun o => frames.getD o 0) (mults N 0 frames.length) =
      frameEvts p vn N frames := by
  rw [mults_zero N hN, evtsOf_map_range, frameEvts]
  apply List.map_congr_left
  intro t _
  rw [Nat.zero_add]

/-- `uploadKeysOf` distributes over appending traces. -/
theorem uploadKeysOf_append : ∀ (a b : List Event),
    uploadKeysOf (a ++ b) = uploadKeysOf a ++ uploadKeysOf b := by
  intro a
  induction a with
  | nil => intro b; rfl
  | cons e a ih =>
    intro b
    cases e <;> simp [uploadKeysOf, ih]

/-- The keys of a mapped list of upload events. -/
theorem uploadKeysOf_map (g : Nat → String) (c : Nat → Nat) : ∀ (l : List Nat),
    uploadKeysOf (l.map (fun t => Event.upload (g t) (c t))) = l.map g := by
  intro l
  induction l with
  | nil => rfl
  | cons t l ih => simp [uploadKeysOf, ih]

/-! ### Characterization of the frame loop -/

/-- One emitting iteration of the frame loop (the `i % sampling_rate == 0`
branch with a successful upload). -/
theorem frameLoop_cons_emit (env : Env) (p vn : String) (N : Nat) (hN : 0 < N)
    (f : Nat) (rest : List Nat) (i fi : Nat) (s : S)
    (hm : i % N = 0) (hu : env.uploadOk (uploadKeyOf p vn fi) = true) :
    frameLoop env p vn (N : Int) (f :: rest) i fi s =
      frameLoop env p vn (N : Int) rest (i + 1) (fi + 1)
        { s with
          outputs := fun q => if q = uploadKeyOf p vn fi then some f else s.outputs q,
          tmp := delTmp (setTmp s.tmp (framePathOf vn fi)) (framePathOf vn fi),
          events := s.events ++ [Event.upload (uploadKeyOf p vn fi) f] } := by
  have hNz : ¬ ((N : Int) = 0) := by
    simp only [Int.natCast_eq_zero]
    omega
  have hpm : pyMod (i : Int) (N : Int) = 0 := by
    rw [pyMod_coe, hm]
    rfl
  simp [frameLoop, hNz, hpm, hu]

/-- One emitting iteration whose upload fails: the exception propagates,
with the frame file still present in scratch. -/
theorem frameLoop_cons_emit_fail (env : Env) (p vn : String) (N : Nat) (hN : 0 < N)
    (f : Nat) (rest : List Nat) (i fi : Nat) (s : S)
    (hm : i % N = 0) (hu : env.uploadOk (uploadKeyOf p vn fi) = false) :
    frameLoop env p vn (N : Int) (f :: rest) i fi s =
      ({ s with
         tmp := setTmp s.tmp (framePathOf vn fi),
         events := s.events ++ [Event.upload (uploadKeyOf p vn fi) f] },
       some (RunError.uploadFailed (uploadKeyOf p vn fi))) := by
  have hNz : ¬ ((N : Int) = 0) := by
    simp only [Int.natCast_eq_zero]
    omega
  have hpm : pyMod (i : Int) (N : Int) = 0 := by
    rw [pyMod_coe, hm]
    rfl
  simp [frameLoop, hNz, hpm, hu]

/-- One skipping iteration of the frame loop. -/
theorem frameLoop_cons_skip (env : Env) (p vn : String) (N : Nat) (hN : 0 < N)
    (f : Nat) (rest : List Nat) (i fi : Nat) (s : S) (hm : ¬ i % N = 0) :
    frameLoop env p vn (N : Int) (f :: rest) i fi s =
      frameLoop env p vn (N : Int) rest (i + 1) fi s := by
  have hNz : ¬ ((N : Int) = 0) := by
    simp only [Int.natCast_eq_zero]
    omega
  have hpm : ¬ (pyMod (i : Int) (N : Int) = 0) := by
    rw [pyMod_coe]
    simp only [Int.natCast_eq_zero]
    exact hm
  simp [frameLoop, hNz, hpm]

/-- The frame loop never touches the cache file, on any path. -/
theorem frameLoop_cache (env : Env) (p vn : String) (rate : Int) :
    ∀ (frames : List Nat) (i fi : Nat) (s : S),
      ((frameLoop env p vn rate frames i fi s).1).cache = s.cache := by
  intro frames
  induction frames with
  | nil => intro i fi s; rfl
  | cons f rest ih =>
    intro i fi s
    by_cases hz : rate = 0
    · simp [frameLoop, hz]
    · by_cases hm : pyMod (i : Int) rate = 0
      · by_cases hu : env.uploadOk (uploadKeyOf p vn fi) = true
        · simp only [frameLoop, if_neg hz, if_pos hm, if_pos hu]
          exact ih (i + 1) (fi + 1) _
        · simp [frameLoop, hz, hm, hu]
      · simp only [frameLoop, if_neg hz, if_neg hm]
        exact ih (i + 1) fi s

/-- Master characterization of a fully successful frame loop under a
sampling rate `N ≥ 1` and an environment where every upload succeeds:
it returns no error, leaves the cache and the scratch set unchanged
(each frame file is created and then removed), and appends one upload
event per sampled ordinal of the remaining window, numbered from the
current frame index. -/
theorem frameLoop_ok (env : Env) (p vn : String) (N : Nat) (hN : 0 < N)
    (hup : ∀ q, env.uploadOk q = true) :
    ∀ (frames : List Nat) (i fi : Nat) (s : S), (∀ j, framePathOf vn j ∉ s.tmp) →
      (frameLoop env p vn (N : Int) frames i fi s).2 = none ∧
      (frameLoop env p vn (N : Int) frames i fi s).1.cache = s.cache ∧
      (frameLoop env p vn (N : Int) frames i fi s).1.tmp = s.tmp ∧
      (frameLoop env p vn (N : Int) frames i fi s).1.events =
        s.events ++ evtsOf p vn fi (fun o => frames.getD (o - i) 0) (mults N i frames.length) := by
  intro frames
  induction frames with
  | nil =>
    intro i fi s hf
    simp [frameLoop, mults, evtsOf]
  | cons f rest ih =>
    intro i fi s hf
    by_cases hm : i % N = 0
    · rw [frameLoop_cons_emit env p vn N hN f rest i fi s hm (hup _)]
      set s' : S :=
        { s with
          outputs := fun q => if q = uploadKeyOf p vn fi then some f else s.outputs q,
          tmp := delTmp (setTmp s.tmp (framePathOf vn fi)) (framePathOf vn fi),
          events := s.events ++ [Event.upload (uploadKeyOf p vn fi) f] } with hs'
      have htmp' : s'.tmp = s.tmp := by
        rw [hs']
        exact delTmp_setTmp s.tmp (framePathOf vn fi) (hf fi)
      have hf' : ∀ j, framePathOf vn j ∉ s'.tmp := by
        intro j
        rw [htmp']
        exact hf j
      obtain ⟨he, hc, ht, hev⟩ := ih (i + 1) (fi + 1) s' hf'
      refine ⟨he, by rw [hc], by rw [ht, htmp'], ?_⟩
      rw [hev]
      have hmul : mults N i (f :: rest).length = i :: mults N (i + 1) rest.length := by
        simp [mults, List.length_cons, hm]
      rw [hmul]
      simp only [evtsOf]
      have hg0 : (f :: rest).getD (i - i) 0 = f := by
        simp [Nat.sub_self]
      rw [hg0]
      have hcongr :
          evtsOf p vn (fi + 1) (fun o => rest.getD (o - (i + 1)) 0) (mults N (i + 1) rest.length) =
          evtsOf p vn (fi + 1) (fun o => (f :: rest).getD (o - i) 0)
            (mults N (i + 1) rest.length) := by
        apply evtsOf_congr
        intro o ho
        have hle := mults_le N rest.length (i + 1) o ho
        have hoi : o - i = (o - (i + 1)) + 1 := by omega
        rw [hoi]
        rfl
      rw [← hcongr]
      simp [hs', List.append_assoc]
    · rw [frameLoop_cons_skip env p vn N hN f rest i fi s hm]
      obtain ⟨he, hc, ht, hev⟩ := ih (i + 1) fi s hf
      refine ⟨he, hc, ht, ?_⟩
      rw [hev]
      have hmul : mults N i (f :: rest).length = mults N (i + 1) rest.length := by
        simp [mults, List.length_cons, hm]
      rw [hmul]
      apply congrArg
      apply evtsOf_congr
      intro o ho
      have hle := mults_le N rest.length (i + 1) o ho
      have hoi : o - i = (o - (i + 1)) + 1 := by omega
      rw [hoi]
      rfl

/-- The loop invariant of the frame loop: after processing a prefix `a`
(under an all-uploads-succeed environment and a positive rate, so that no
iteration aborts), the loop continues on the remaining frames with decoded
ordinal `i + a.length` and frame index increased by the number of sampled
ordinals in the prefix window. -/
theorem frameLoop_append (env : Env) (p vn : String) (N : Nat) (hN : 0 < N)
    (hup : ∀ q, env.uploadOk q = true) :
    ∀ (a : List Nat) (b : List Nat) (i fi : Nat) (s : S),
      frameLoop env p vn (N : Int) (a ++ b) i fi s =
        frameLoop env p vn (N : Int) b (i + a.length)
          (fi + (mults N i a.length).length)
          ((frameLoop env p vn (N : Int) a i fi s).1) := by
  intro a
  induction a with
  | nil =>
    intro b i fi s
    simp [frameLoop, mults]
  | cons f rest ih =>
    intro b i fi s
    by_cases hm : i % N = 0
    · rw [List.cons_append, frameLoop_cons_emit env p vn N hN f (rest ++ b) i fi s hm (hup _),
        frameLoop_cons_emit env p vn N hN f rest i fi s hm (hup _), ih b (i + 1) (fi + 1) _]
      have hmul : mults N i (f :: rest).length = i :: mults N (i + 1) rest.length := by
        simp [mults, List.length_cons, hm]
      rw [hmul]
      have h1 : i + (f :: rest).length = i + 1 + rest.length := by
        simp [List.length_cons]
        omega
      have h2 : fi + (i :: mults N (i + 1) rest.length).length =
          fi + 1 + (mults N (i + 1) rest.length).length := by
        simp [List.length_cons]
        omega
      rw [h1, h2]
    · rw [List.cons_append, frameLoop_cons_skip env p vn N hN f (rest ++ b) i fi s hm,
        frameLoop_cons_skip env p vn N hN f rest i fi s hm, ih b (i + 1) fi s]
      have hmul : mults N i (f :: rest).length = mults N (i + 1) rest.length := by
        simp [mults, List.length_cons, hm]
      rw [hmul]
      have h1 : i + (f :: rest).length = i + 1 + rest.length := by
        simp [List.length_cons]
        omega
      rw [h1]

/-! ### Characterization of per-video processing -/

/-- A failing download aborts the video before any scratch file is
created: the only effect is the recorded download attempt. -/
theorem processVideo_dlfail (env : Env) (p : String) (rate : Int) (vk : String) (s : S)
    (hnc : isComplete s.cache (basename vk) = false) (hdl : env.downloadOk vk = false) :
    processVideo env p rate vk s =
      ({ s with events := s.events ++ [Event.download vk] },
       some (RunError.downloadFailed vk)) := by
  simp [processVideo, hnc, hdl]

/-- Any erroring pass over a video leaves the cache file untouched: the
ledger line is written only on the success path. -/
theorem processVideo_err_cache (env : Env) (p : String) (rate : Int) (vk : String)
    (s s1 : S) (e : RunError) (h : processVideo env p rate vk s = (s1, some e)) :
    s1.cache = s.cache := by
  by_cases hc : isComplete s.cache (basename vk) = true
  · simp [processVideo, hc] at h
  · rw [Bool.not_eq_true] at hc
    by_cases hd : env.downloadOk vk = true
    · rcases hfl : frameLoop env p (basename vk) rate (env.videos vk) 0 0
        { s with events := s.events ++ [Event.download vk],
                 tmp := setTmp s.tmp (downloadPathOf (basename vk)) } with ⟨s3, e3⟩
      have hcache := frameLoop_cache env p (basename vk) rate (env.videos vk) 0 0
        { s with events := s.events ++ [Event.download vk],
                 tmp := setTmp s.tmp (downloadPathOf (basename vk)) }
      rw [hfl] at hcache
      simp only [processVideo, hc, hd, if_false, if_true, Bool.false_eq_true, hfl] at h
      cases e3 with
      | none => simp at h
      | some e' =>
        simp at h
        rw [← h.1, hcache]
    · rw [Bool.not_eq_true] at hd
      rw [processVideo_dlfail env p rate vk s hc hd] at h
      injection h with h1 h2
      rw [← h1]

/-- Master characterization of a fully successful pass over one video:
no error, the ledger line appended, scratch empty again, and the trace
extended by the download, one upload per sampled frame, and the ledger
append. -/
theorem processVideo_ok (env : Env) (p vk : String) (N : Nat) (s : S)
    (hN : 0 < N) (hup : ∀ q, env.uploadOk q = true) (hdl : env.downloadOk vk = true)
    (hnc : isComplete s.cache (basename vk) = false) (htmp : s.tmp = []) :
    (processVideo env p (N : Int) vk s).2 = none ∧
    (processVideo env p (N : Int) vk s).1.cache = markComplete s.cache (basename vk) ∧
    (processVideo env p (N : Int) vk s).1.tmp = [] ∧
    (processVideo env p (N : Int) vk s).1.events =
      s.events ++ Event.download vk ::
        (frameEvts p (basename vk) N (env.videos vk) ++
         [Event.ledgerAppend (downloadPathOf (basename vk) ++ "\n")]) := by
  have hs2tmp : setTmp s.tmp (downloadPathOf (basename vk)) = [downloadPathOf (basename vk)] := by
    rw [htmp]
    simp [setTmp]
  have hf : ∀ j, framePathOf (basename vk) j ∉ setTmp s.tmp (downloadPathOf (basename vk)) := by
    intro j
    rw [hs2tmp]
    simp only [List.mem_singleton]
    exact framePath_ne_downloadPath (basename vk) j
  obtain ⟨he, hc, ht, hev⟩ := frameLoop_ok env p (basename vk) N hN hup (env.videos vk) 0 0
    { s with events := s.events ++ [Event.download vk],
             tmp := setTmp s.tmp (downloadPathOf (basename vk)) } hf
  rcases hfl : frameLoop env p (basename vk) (N : Int) (env.videos vk) 0 0
      { s with events := s.events ++ [Event.download vk],
               tmp := setTmp s.tmp (downloadPathOf (basename vk)) } with ⟨s3, e3⟩
  rw [hfl] at he hc ht hev
  simp only at he hc ht hev
  subst he
  have hbr : evtsOf p (basename vk) 0 (fun o => (env.videos vk).getD o 0)
      (mults N 0 (env.videos vk).length) = frameEvts p (basename vk) N (env.videos vk) :=
    evtsOf_mults p (basename vk) N hN (env.videos vk)
  have hds : delTmp (setTmp s.tmp (downloadPathOf (basename vk)))
      (downloadPathOf (basename vk)) = [] := by
    rw [hs2tmp]
    simp [delTmp, List.erase_cons_head]
  refine ⟨?_, ?_, ?_, ?_⟩
  · simp [processVideo, hnc, hdl, hfl]
  · simp [processVideo, hnc, hdl, hfl, hc, markComplete]
  · simp [processVideo, hnc, hdl, hfl, ht, hds]
  · simp [processVideo, hnc, hdl, hfl, hev]
    rw [← hbr]
    simp

/-! ### The claims -/

/-- C1: the claim states that for the completion ledger, `isComplete(v)`
is false before `markComplete(v)` and true after, unaffected by the
trailing line terminator of the storage format.  The code violates it:
`markComplete` appends `download_path + "\n"` while the membership test
compares the bare `download_path` against `readlines()` output whose
lines keep their terminator, so `isComplete "a.mp4"` is still false
right after `markComplete "a.mp4"`; the stored line is exactly
`"/tmp/a.mp4\n"`. -/
theorem C1_code_bug_eval :
    isComplete initS.cache "a.mp4" = false ∧
    isComplete (markComplete initS.cache "a.mp4") "a.mp4" = false ∧
    pyReadlines ((markComplete initS.cache "a.mp4").getD "") = ["/tmp/a.mp4\n"] := by
  decide

/-- C2: the claim states that a second run over an unchanged listing
performs zero downloads and zero uploads for videos completed on the
first run.  The code violates it: the first run over `in/a.mp4`
completes and appends the ledger line, yet the second run, started from
the final state of the first, performs the same download and upload
again, because the cache membership test never matches. -/
theorem C2_code_bug_eval :
    (mainRun envAllOk "in" "out" 1 ["in/a.mp4"] initS).2 = none ∧
    (mainRun envAllOk "in" "out" 1 ["in/a.mp4"] initS).1.events =
      [Event.listKeys "in", Event.download "in/a.mp4",
       Event.upload "out/a.mp4_frame_0.jpg" 5, Event.ledgerAppend "/tmp/a.mp4\n"] ∧
    (mainRun envAllOk "in" "out" 1 ["in/a.mp4"]
        { (mainRun envAllOk "in" "out" 1 ["in/a.mp4"] initS).1 with events := [] }).1.events =
      [Event.listKeys "in", Event.download "in/a.mp4",
       Event.upload "out/a.mp4_frame_0.jpg" 5, Event.ledgerAppend "/tmp/a.mp4\n"] := by
  decide

/-- C3: the claim states that when decoding stops before the video's full
decodable length, no ledger entry is written.  The code violates it: the
loop cannot distinguish a mid-video decode failure from the end of the
video (`cap.read` returns `ret = False` in both cases) and the ledger
line is appended after every loop exit.  Here the decoder of `in/v.mp4`
returned a single frame (of a video whose full decodable length is
larger), only frame 0 was uploaded, and the ledger line was written
anyway. -/
theorem C3_code_bug_eval :
    (processVideo envAllOk "out" 1 "in/v.mp4" initS).2 = none ∧
    (processVideo envAllOk "out" 1 "in/v.mp4" initS).1.cache = some "/tmp/v.mp4\n" ∧
    uploadKeysOf (processVideo envAllOk "out" 1 "in/v.mp4" initS).1.events =
      ["out/v.mp4_frame_0.jpg"] := by
  decide

/-- C4, counterexample: with three candidates where the second fails to
download, the claim asserts the third still completes and gets a ledger
entry.  In the code the uncaught download exception aborts the whole
run: the first video completes, but the third is never downloaded and
gets no ledger entry. -/
theorem C4_counterexample :
    (mainRun envC4 "in" "out" 1 ["in/a.mp4", "in/b.mp4", "in/c.mp4"] initS).2 =
      some (RunError.downloadFailed "in/b.mp4") ∧
    Event.ledgerAppend "/tmp/a.mp4\n" ∈
      (mainRun envC4 "in" "out" 1 ["in/a.mp4", "in/b.mp4", "in/c.mp4"] initS).1.events ∧
    Event.download "in/c.mp4" ∉
      (mainRun envC4 "in" "out" 1 ["in/a.mp4", "in/b.mp4", "in/c.mp4"] initS).1.events ∧
    Event.ledgerAppend "/tmp/c.mp4\n" ∉
      (mainRun envC4 "in" "out" 1 ["in/a.mp4", "in/b.mp4", "in/c.mp4"] initS).1.events := by
  decide

/-- C4, amended: a download or upload failure on one video (the cases in
which the script raises) writes no ledger entry for that video, but does
not isolate the fault: the uncaught exception aborts the entire run, so
no subsequent video in the listing is processed (the run's result is
already determined at the failing video, whatever the rest of the
listing holds).  A mid-video decode failure, by contrast, raises no
exception: the run does continue past the truncated video to every
subsequent one, and a ledger entry is written for the truncated video
(the no-entry part of the original claim fails there, as C3 records). -/
theorem C4_amended_abort :
    (∀ (env : Env) (p : String) (rate : Int) (vk : String) (rest : List String)
       (s s1 : S) (e : RunError),
      processVideo env p rate vk s = (s1, some e) →
      runKeys env p rate (vk :: rest) s = (s1, some e) ∧ s1.cache = s.cache) ∧
    (∀ (env : Env) (p : String) (rate : Int) (vk : String) (rest : List String)
       (s s1 : S),
      processVideo env p rate vk s = (s1, none) →
      runKeys env p rate (vk :: rest) s = runKeys env p rate rest s1) ∧
    (∀ (env : Env) (p vk : String) (N : Nat) (s : S),
      0 < N → (∀ q, env.uploadOk q = true) → env.downloadOk vk = true →
      isComplete s.cache (basename vk) = false → s.tmp = [] →
      (processVideo env p (N : Int) vk s).2 = none ∧
      (processVideo env p (N : Int) vk s).1.cache =
        markComplete s.cache (basename vk)) := by
  refine ⟨?_, ?_, ?_⟩
  · intro env p rate vk rest s s1 e h
    exact ⟨by simp only [runKeys, h], processVideo_err_cache env p rate vk s s1 e h⟩
  · intro env p rate vk rest s s1 h
    simp only [runKeys, h]
  · intro env p vk N s hN hup hdl hnc htmp
    obtain ⟨he, hc, _, _⟩ := processVideo_ok env p vk N s hN hup hdl hnc htmp
    exact ⟨he, hc⟩

/-- Witness for C4's amended theorem: a concrete failing download aborts
the run with no new cache line; a video whose decoder truncated (it
returned a single frame) raises nothing, so the run moves on to the next
candidate with the truncated video's ledger line freshly written. -/
theorem C4_amended_abort_witness :
    ((runKeys envDlFail "out" 1 ["in/b.mp4", "in/c.mp4"] initS).2 =
        some (RunError.downloadFailed "in/b.mp4") ∧
      (runKeys envDlFail "out" 1 ["in/b.mp4", "in/c.mp4"] initS).1.cache = initS.cache) ∧
    (runKeys envAllOk "out" 1 ["in/a.mp4", "in/c.mp4"] initS =
      runKeys envAllOk "out" 1 ["in/c.mp4"]
        ((processVideo envAllOk "out" 1 "in/a.mp4" initS).1)) ∧
    ((processVideo envAllOk "out" ((1 : Nat) : Int) "in/a.mp4" initS).2 = none ∧
      (processVideo envAllOk "out" ((1 : Nat) : Int) "in/a.mp4" initS).1.cache =
        markComplete initS.cache (basename "in/a.mp4")) := by
  refine ⟨?_, ?_, ?_⟩
  · have h := C4_amended_abort.1 envDlFail "out" 1 "in/b.mp4" ["in/c.mp4"] initS
      { cache := none, tmp := [], outputs := fun _ => none,
        events := [Event.download "in/b.mp4"] }
      (RunError.downloadFailed "in/b.mp4") rfl
    rw [h.1]
    exact ⟨rfl, h.2⟩
  · exact C4_amended_abort.2.1 envAllOk "out" 1 "in/a.mp4" ["in/c.mp4"] initS
      ((processVideo envAllOk "out" 1 "in/a.mp4" initS).1) rfl
  · exact C4_amended_abort.2.2 envAllOk "out" "in/a.mp4" 1 initS (by decide)
      (fun _ => rfl) rfl rfl rfl

/-- C5, counterexample: the claim asserts that after any abandonment no
local scratch file remains.  When the upload of frame 0 fails, the code
propagates the exception before `os.remove`, leaving both the downloaded
video and the frame image in `/tmp`. -/
theorem C5_counterexample :
    (processVideo envUpFail "out" 1 "in/v.mp4" initS).2 =
      some (RunError.uploadFailed "out/v.mp4_frame_0.jpg") ∧
    (processVideo envUpFail "out" 1 "in/v.mp4" initS).1.tmp =
      ["/tmp/v.mp4", "/tmp/v.mp4_frame_0.jpg"] := by
  decide

/-- C5, amended: after a download failure no scratch file for the video
exists (none was created); on a fully successful pass all scratch files
are deleted; but a frame-upload failure leaves the downloaded video file
and the in-flight frame image in scratch. -/
theorem C5_amended_cleanup :
    (∀ (env : Env) (p : String) (rate : Int) (vk : String) (s : S),
      isComplete s.cache (basename vk) = false → env.downloadOk vk = false →
      (processVideo env p rate vk s).2 = some (RunError.downloadFailed vk) ∧
      (processVideo env p rate vk s).1.tmp = s.tmp) ∧
    (∀ (env : Env) (p vk : String) (N : Nat) (s : S),
      0 < N → (∀ q, env.uploadOk q = true) → env.downloadOk vk = true →
      isComplete s.cache (basename vk) = false → s.tmp = [] →
      (processVideo env p (N : Int) vk s).1.tmp = []) ∧
    ((processVideo envUpFail "out" 1 "in/v.mp4" initS).2 =
        some (RunError.uploadFailed "out/v.mp4_frame_0.jpg") ∧
      (processVideo envUpFail "out" 1 "in/v.mp4" initS).1.tmp =
        ["/tmp/v.mp4", "/tmp/v.mp4_frame_0.jpg"]) := by
  refine ⟨?_, ?_, ?_⟩
  · intro env p rate vk s hnc hdl
    rw [processVideo_dlfail env p rate vk s hnc hdl]
    exact ⟨rfl, rfl⟩
  · intro env p vk N s hN hup hdl hnc htmp
    exact (processVideo_ok env p vk N s hN hup hdl hnc htmp).2.2.1
  · decide

/-- Witness for C5's amended theorem at concrete inputs. -/
theorem C5_amended_cleanup_witness :
    (processVideo envDlFail "out" 1 "in/v.mp4" initS).1.tmp = initS.tmp ∧
    (processVideo envAllOk "out" ((1 : Nat) : Int) "in/v.mp4" initS).1.tmp = [] :=
  ⟨(C5_amended_cleanup.1 envDlFail "out" 1 "in/v.mp4" initS rfl rfl).2,
   C5_amended_cleanup.2.1 envAllOk "out" "in/v.mp4" 1 initS (by decide) (fun _ => rfl)
     rfl rfl rfl⟩

/-- C6, counterexample: the claim asserts that a sampling rate of 0 is
rejected before any I/O.  The code performs the listing and the first
download and only then hits the division by zero at the first decoded
frame. -/
theorem C6_counterexample :
    (mainRun envAllOk "in" "out" 0 ["in/v.mp4"] initS).2 = some RunError.zeroDivision ∧
    Event.download "in/v.mp4" ∈ (mainRun envAllOk "in" "out" 0 ["in/v.mp4"] initS).1.events := by
  decide

/-- C6, amended: the program performs no validation of the sampling rate.
Invoked with rate 0 on a fresh machine, it lists the input location and
downloads the first video (whose decoder yields at least one frame), and
only then aborts with an uncaught `ZeroDivisionError` raised by
`i % sampling_rate`: the trace at abort already holds both I/O events.
A negative rate is likewise accepted rather than rejected: the same
one-frame run at rate -5 completes normally, emitting frame 0 and
writing the ledger line. -/
theorem C6_amended_no_validation (env : Env) (ipfx p vk : String) (f0 : Nat) (fr : List Nat)
    (ks : List String) (hv : env.videos vk = f0 :: fr) (hdl : env.downloadOk vk = true) :
    ((mainRun env ipfx p 0 (vk :: ks) initS).2 = some RunError.zeroDivision ∧
     (mainRun env ipfx p 0 (vk :: ks) initS).1.events =
       [Event.listKeys ipfx, Event.download vk]) ∧
    ((mainRun envAllOk "in" "out" (-5) ["in/v.mp4"] initS).2 = none ∧
     (mainRun envAllOk "in" "out" (-5) ["in/v.mp4"] initS).1.events =
       [Event.listKeys "in", Event.download "in/v.mp4",
        Event.upload "out/v.mp4_frame_0.jpg" 5, Event.ledgerAppend "/tmp/v.mp4\n"]) := by
  constructor
  · have hnc : isComplete none (basename vk) = false := rfl
    constructor <;>
      simp [mainRun, runKeys, processVideo, frameLoop, initS, hv, hdl, hnc]
  · decide

/-- Witness for C6's amended theorem at a concrete invocation. -/
theorem C6_amended_no_validation_witness :
    (mainRun envAllOk "in" "out" 0 ["in/v.mp4"] initS).2 = some RunError.zeroDivision ∧
    (mainRun envAllOk "in" "out" 0 ["in/v.mp4"] initS).1.events =
      [Event.listKeys "in", Event.download "in/v.mp4"] :=
  (C6_amended_no_validation envAllOk "in" "out" "in/v.mp4" 5 [] [] rfl rfl).1

/-- C7: for a video yielding `D` decodable frames and a sampling rate
`N ≥ 1`, a fully successful pass performs exactly `⌈D / N⌉` uploads: the
upload with frame index `t` carries the frame at decoded ordinal `t * N`,
and every sampled ordinal is strictly below `D` (so ordinal 0 is emitted
whenever `D > 0`). -/
theorem C7_completeness (env : Env) (p vn : String) (N : Nat) (frames : List Nat) (s : S)
    (hN : 0 < N) (hup : ∀ q, env.uploadOk q = true) (htmp : s.tmp = []) :
    (frameLoop env p vn (N : Int) frames 0 0 s).2 = none ∧
    (frameLoop env p vn (N : Int) frames 0 0 s).1.events =
      s.events ++ (List.range ((frames.length + N - 1) / N)).map
        (fun t => Event.upload (uploadKeyOf p vn t) (frames.getD (t * N) 0)) ∧
    (∀ t, t < (frames.length + N - 1) / N → t * N < frames.length) := by
  have hf : ∀ j, framePathOf vn j ∉ s.tmp := by
    intro j
    rw [htmp]
    simp
  obtain ⟨he, _, _, hev⟩ := frameLoop_ok env p vn N hN hup frames 0 0 s hf
  refine ⟨he, ?_, ?_⟩
  · rw [hev]
    congr 1
    have hfun : (fun o => frames.getD (o - 0) 0) = (fun o => frames.getD o 0) := by
      funext o
      rw [Nat.sub_zero]
    rw [hfun]
    exact evtsOf_mults p vn N hN frames
  · intro t ht
    exact mul_lt_of_lt_ceil N frames.length t hN ht

/-- Witness for C7 at `D = 5`, `N = 2` (three uploads, ordinals 0, 2, 4). -/
theorem C7_completeness_witness :
    (frameLoop envAllOk "out" "v.mp4" ((2 : Nat) : Int) [10, 11, 12, 13, 14] 0 0 initS).2 =
      none ∧
    (frameLoop envAllOk "out" "v.mp4" ((2 : Nat) : Int) [10, 11, 12, 13, 14] 0 0 initS).1.events =
      initS.events ++
        (List.range ((([10, 11, 12, 13, 14] : List Nat).length + 2 - 1) / 2)).map
        (fun t => Event.upload (uploadKeyOf "out" "v.mp4" t)
          (([10, 11, 12, 13, 14] : List Nat).getD (t * 2) 0)) ∧
    (∀ t, t < (([10, 11, 12, 13, 14] : List Nat).length + 2 - 1) / 2 →
      t * 2 < ([10, 11, 12, 13, 14] : List Nat).length) :=
  C7_completeness envAllOk "out" "v.mp4" 2 [10, 11, 12, 13, 14] initS (by decide)
    (fun _ => rfl) rfl

/-- C8: for a successfully completed video, the upload keys produced
during its processing are exactly
`{output_prefix}/{basename}_frame_{t}.jpg` for `t = 0, …, k - 1`, in
order, where `k = ⌈D / N⌉` is the number of emitted frames: indices are
contiguous from 0 with no gaps or duplicates, and the name used is the
basename of the video's key. -/
theorem C8_output_naming (env : Env) (p vk : String) (N : Nat) (s : S)
    (hN : 0 < N) (hup : ∀ q, env.uploadOk q = true) (hdl : env.downloadOk vk = true)
    (hnc : isComplete s.cache (basename vk) = false) (htmp : s.tmp = []) :
    (processVideo env p (N : Int) vk s).2 = none ∧
    uploadKeysOf (((processVideo env p (N : Int) vk s).1.events).drop s.events.length) =
      (List.range (((env.videos vk).length + N - 1) / N)).map
        (fun t => uploadKeyOf p (basename vk) t) := by
  obtain ⟨he, _, _, hev⟩ := processVideo_ok env p vk N s hN hup hdl hnc htmp
  refine ⟨he, ?_⟩
  rw [hev]
  rw [show s.events ++ Event.download vk ::
      (frameEvts p (basename vk) N (env.videos vk) ++
       [Event.ledgerAppend (downloadPathOf (basename vk) ++ "\n")]) =
    s.events ++ (Event.download vk ::
      (frameEvts p (basename vk) N (env.videos vk) ++
       [Event.ledgerAppend (downloadPathOf (basename vk) ++ "\n")])) from rfl]
  rw [List.drop_left]
  simp only [uploadKeysOf]
  rw [uploadKeysOf_append]
  simp only [uploadKeysOf, List.append_nil, frameEvts]
  exact uploadKeysOf_map (fun t => uploadKeyOf p (basename vk) t)
    (fun t => (env.videos vk).getD (t * N) 0) _

/-- Witness for C8 at a one-frame video with rate 2: one upload,
`out/v.mp4_frame_0.jpg`. -/
theorem C8_output_naming_witness :
    (processVideo envAllOk "out" ((2 : Nat) : Int) "in/v.mp4" initS).2 = none ∧
    uploadKeysOf (((processVideo envAllOk "out" ((2 : Nat) : Int) "in/v.mp4" initS).1.events).drop
        initS.events.length) =
      (List.range (((envAllOk.videos "in/v.mp4").length + 2 - 1) / 2)).map
        (fun t => uploadKeyOf "out" (basename "in/v.mp4") t) :=
  C8_output_naming envAllOk "out" "in/v.mp4" 2 initS (by decide) (fun _ => rfl) rfl rfl rfl

/-- C9: the loop invariant of the frame loop.  Under a positive rate and
no upload failures, the loop over `a ++ b` started at ordinal 0 and frame
index 0 continues into `b` at ordinal `a.length` carrying frame index
equal to the number of ordinals `j < a.length` with `j % N = 0`, i.e. the
count of previously emitted frames: the index attached to each uploaded
frame equals the number of frames emitted before it, which keeps the
uploaded indices contiguous from 0. -/
theorem C9_frame_index_invariant (env : Env) (p vn : String) (N : Nat)
    (hN : 0 < N) (hup : ∀ q, env.uploadOk q = true) (a b : List Nat) (s : S) :
    frameLoop env p vn (N : Int) (a ++ b) 0 0 s =
      frameLoop env p vn (N : Int) b a.length
        (((List.range a.length).filter (fun j => decide (j % N = 0))).length)
        ((frameLoop env p vn (N : Int) a 0 0 s).1) := by
  have h := frameLoop_append env p vn N hN hup a b 0 0 s
  rw [h]
  simp only [Nat.zero_add]
  rw [mults_filter]

/-- Witness for C9 at `a = [1, 2, 3]`, `b = [4, 5]`, `N = 2`. -/
theorem C9_frame_index_invariant_witness :
    frameLoop envAllOk "out" "v.mp4" ((2 : Nat) : Int) ([1, 2, 3] ++ [4, 5]) 0 0 initS =
      frameLoop envAllOk "out" "v.mp4" ((2 : Nat) : Int) [4, 5] ([1, 2, 3] : List Nat).length
        (((List.range ([1, 2, 3] : List Nat).length).filter
          (fun j => decide (j % 2 = 0))).length)
        ((frameLoop envAllOk "out" "v.mp4" ((2 : Nat) : Int) [1, 2, 3] 0 0 initS).1) :=
  C9_frame_index_invariant envAllOk "out" "v.mp4" 2 (by decide) (fun _ => rfl)
    [1, 2, 3] [4, 5] initS

/-- C10: video identity is the basename of the object key.  For any two
keys with equal basenames, the scratch download path, every output frame
key, and the appended ledger line coincide; concretely, running the
pipeline over `a/v.mp4` (frame content 3) and `b/v.mp4` (frame content
9) leaves the shared output object `out/v.mp4_frame_0.jpg` holding the
later video's frame, and the cache file holds the single distinct ledger
line `/tmp/v.mp4\n`. -/
theorem C10_basename_identity (k1 k2 : String) (h : basename k1 = basename k2) :
    (downloadPathOf (basename k1) = downloadPathOf (basename k2) ∧
     (∀ p i, uploadKeyOf p (basename k1) i = uploadKeyOf p (basename k2) i) ∧
     (∀ c, markComplete c (basename k1) = markComplete c (basename k2))) ∧
    (basename "a/v.mp4" = basename "b/v.mp4" ∧
     (mainRun envC10 "in" "out" 1 ["a/v.mp4", "b/v.mp4"] initS).1.outputs
        "out/v.mp4_frame_0.jpg" = some 9 ∧
     (pyReadlines
        (((mainRun envC10 "in" "out" 1 ["a/v.mp4", "b/v.mp4"] initS).1.cache).getD "")).dedup =
       ["/tmp/v.mp4\n"]) := by
  constructor
  · rw [h]
    exact ⟨rfl, fun p i => rfl, fun c => rfl⟩
  · exact ⟨by decide, by decide, by decide⟩

/-- Witness for C10 at the two colliding keys `a/v.mp4` and `b/v.mp4`. -/
theorem C10_basename_identity_witness :
    (downloadPathOf (basename "a/v.mp4") = downloadPathOf (basename "b/v.mp4") ∧
     (∀ p i, uploadKeyOf p (basename "a/v.mp4") i = uploadKeyOf p (basename "b/v.mp4") i) ∧
     (∀ c, markComplete c (basename "a/v.mp4") = markComplete c (basename "b/v.mp4"))) ∧
    (basename "a/v.mp4" = basename "b/v.mp4" ∧
     (mainRun envC10 "in" "out" 1 ["a/v.mp4", "b/v.mp4"] initS).1.outputs
        "out/v.mp4_frame_0.jpg" = some 9 ∧
     (pyReadlines
        (((mainRun envC10 "in" "out" 1 ["a/v.mp4", "b/v.mp4"] initS).1.cache).getD "")).dedup =
       ["/tmp/v.mp4\n"]) :=
  C10_basename_identity "a/v.mp4" "b/v.mp4" (by decide)

end FrameExtract
